import Mathlib

/-!
Verification of the CoreThread dispatch engine (CmCoreThread.cpp).

The development shallowly embeds the data model and operations of the
dispatcher: the double-buffered frame arenas, the thread-affinity guards,
the submission paths of queueCommand and queueReturnCommand, the lazy
per-thread accessor cache, and a small-step transition system for the
producer/consumer command protocol with completion notification.
-/

namespace BansheeEngine

/-! ## Frame arenas (CoreThread constructor, update, getFrameAlloc) -/

/-- A frame allocator arena. The id field models object identity (which of
the two FrameAlloc objects created in the constructor this is); contents
models the allocations currently held. clear resets contents but keeps
identity, as FrameAlloc.clear does in the source. -/
structure FrameAlloc where
  id : Nat
  contents : List Nat
deriving DecidableEq, Repr

def FrameAlloc.clear (f : FrameAlloc) : FrameAlloc :=
  { f with contents := [] }

/-- The frame-arena portion of CoreThread state: mActiveFrameAlloc and the
mFrameAllocs array (a two-element array in the source, modelled as a list). -/
structure FrameState where
  mActiveFrameAlloc : Nat
  mFrameAllocs : List FrameAlloc
deriving DecidableEq, Repr

/-- Constructor state: mActiveFrameAlloc = 0 and two fresh FrameAlloc
objects (CoreThread::CoreThread, lines 17-20). -/
def initFrameState : FrameState :=
  { mActiveFrameAlloc := 0, mFrameAllocs := [⟨0, []⟩, ⟨1, []⟩] }

/-- Clear the arena at index n, leaving the rest of the list unchanged
(models mFrameAllocs[n]->clear()). -/
def clearAt : List FrameAlloc → Nat → List FrameAlloc
  | [], _ => []
  | f :: fs, 0 => f.clear :: fs
  | f :: fs, n + 1 => f :: clearAt fs n

/-- CoreThread::update (lines 213-217): flip the active index by
(i + 1) % 2, then clear the arena at the new active index. -/
def update (s : FrameState) : FrameState :=
  let newActive := (s.mActiveFrameAlloc + 1) % 2
  { mActiveFrameAlloc := newActive
    mFrameAllocs := clearAt s.mFrameAllocs newActive }

/-- CoreThread::getFrameAlloc (lines 219-222): return
mFrameAllocs[mActiveFrameAlloc]. -/
def getFrameAlloc (s : FrameState) : Option FrameAlloc :=
  s.mFrameAllocs.get? s.mActiveFrameAlloc

/-- The claim of C2 as stated: update flips the parity and clears the
now-inactive arena (the one active before the call), leaving the newly
active arena untouched. -/
def C2ClaimAt (s : FrameState) : Prop :=
  (update s).mActiveFrameAlloc = (s.mActiveFrameAlloc + 1) % 2 ∧
  (update s).mFrameAllocs.get? s.mActiveFrameAlloc =
    (s.mFrameAllocs.get? s.mActiveFrameAlloc).map FrameAlloc.clear ∧
  (update s).mFrameAllocs.get? ((s.mActiveFrameAlloc + 1) % 2) =
    s.mFrameAllocs.get? ((s.mActiveFrameAlloc + 1) % 2)

/-! ## Thread-affinity guards (throwIfNotCoreThread, throwIfCoreThread) -/

/-- The error surface of the guards: CM_EXCEPT(InternalErrorException, msg). -/
inductive CoreError where
  | InternalError (msg : String)
deriving DecidableEq, Repr

/-- throwIfNotCoreThread (lines 273-279): raise InternalError when the
current thread is not the core thread. -/
def throwIfNotCoreThread (currentThreadId coreThreadId : Nat) :
    Except CoreError Unit :=
  if currentThreadId ≠ coreThreadId then
    .error (.InternalError "This method can only be accessed from the core thread.")
  else
    .ok ()

/-- throwIfCoreThread (lines 281-287): raise InternalError when the current
thread is the core thread. -/
def throwIfCoreThread (currentThreadId coreThreadId : Nat) :
    Except CoreError Unit :=
  if currentThreadId = coreThreadId then
    .error (.InternalError "This method cannot be accessed from the core thread.")
  else
    .ok ()

/-! ## Commands and the submission paths (queueCommand, queueReturnCommand) -/

/-- Modelled from the spec: a queued command of the CommandQueue container
(whose class is outside this file). It carries the identity of its
callable, whether it produces a return value, and an optional notify id
(notifyOnComplete plus the id value). -/
structure QueuedCommand where
  callbackId : Nat
  returnsValue : Bool
  notifyOnComplete : Bool
  notifyId : Nat
deriving DecidableEq, Repr

/-- An AsyncOp result handle: hasCompleted records whether the command body
has already run and populated it. -/
structure AsyncOp where
  hasCompleted : Bool
deriving DecidableEq, Repr

/-- The observable effect of one call to queueCommand or queueReturnCommand:
the resulting shared queue and notify counter, the callbacks executed
synchronously on the calling thread, whether the consumer condition was
signalled, and the notify id the call blocks on before returning (if any). -/
structure SubmitEffect where
  queue : List QueuedCommand
  mMaxCommandNotifyId : Nat
  executedImmediately : List Nat
  notifiedConsumer : Bool
  blockedOnId : Option Nat
deriving DecidableEq, Repr

/-- CoreThread::queueCommand (lines 186-211). If called on the core thread,
execute the callback immediately and return. Otherwise, under the queue
lock: when blocking, allocate commandId = mMaxCommandNotifyId++ and enqueue
with notifyOnComplete; otherwise enqueue plain. Then notify the consumer
condition, and when blocking, call blockUntilCommandCompleted(commandId). -/
def queueCommand (currentThreadId coreThreadId callbackId : Nat)
    (blockUntilComplete : Bool) (queue : List QueuedCommand)
    (mMaxCommandNotifyId : Nat) : SubmitEffect :=
  if currentThreadId = coreThreadId then
    { queue := queue
      mMaxCommandNotifyId := mMaxCommandNotifyId
      executedImmediately := [callbackId]
      notifiedConsumer := false
      blockedOnId := none }
  else if blockUntilComplete then
    { queue := queue ++ [⟨callbackId, false, true, mMaxCommandNotifyId⟩]
      mMaxCommandNotifyId := mMaxCommandNotifyId + 1
      executedImmediately := []
      notifiedConsumer := true
      blockedOnId := some mMaxCommandNotifyId }
  else
    { queue := queue ++ [⟨callbackId, false, false, 0⟩]
      mMaxCommandNotifyId := mMaxCommandNotifyId
      executedImmediately := []
      notifiedConsumer := true
      blockedOnId := none }

/-- CoreThread::queueReturnCommand (lines 155-184). Same shape as
queueCommand but the callback receives an AsyncOp: on the core thread the
callback runs immediately and the populated op is returned; otherwise the
command is enqueued (with a notify id exactly when blocking) and the not
yet completed op is returned. -/
def queueReturnCommand (currentThreadId coreThreadId callbackId : Nat)
    (blockUntilComplete : Bool) (queue : List QueuedCommand)
    (mMaxCommandNotifyId : Nat) : AsyncOp × SubmitEffect :=
  if currentThreadId = coreThreadId then
    (⟨true⟩,
      { queue := queue
        mMaxCommandNotifyId := mMaxCommandNotifyId
        executedImmediately := [callbackId]
        notifiedConsumer := false
        blockedOnId := none })
  else if blockUntilComplete then
    (⟨false⟩,
      { queue := queue ++ [⟨callbackId, true, true, mMaxCommandNotifyId⟩]
        mMaxCommandNotifyId := mMaxCommandNotifyId + 1
        executedImmediately := []
        notifiedConsumer := true
        blockedOnId := some mMaxCommandNotifyId })
  else
    (⟨false⟩,
      { queue := queue ++ [⟨callbackId, true, false, 0⟩]
        mMaxCommandNotifyId := mMaxCommandNotifyId
        executedImmediately := []
        notifiedConsumer := true
        blockedOnId := none })

/-! ## The lazy per-thread accessor cache (getAccessor) -/

/-- The accessor bookkeeping of CoreThread: the thread-local cache
mAccessor (one slot per thread id), the central registry mAccessors, and a
freshness counter standing for allocation of new AccessorContainer
objects. -/
structure AccessorState where
  tls : Nat → Option Nat
  mAccessors : List Nat
  nextAccessorId : Nat

/-- Accessor state at CoreThread construction: no thread-local cache entry
and an empty registry. -/
def initAccessorState : AccessorState :=
  { tls := fun _ => none, mAccessors := [], nextAccessorId := 0 }

/-- CoreThread::getAccessor (lines 119-132). If the thread-local slot of
the calling thread is empty, create a new accessor, cache it in the slot
and push it onto mAccessors under the accessor mutex; return the cached
accessor. -/
def getAccessor (threadId : Nat) (s : AccessorState) : Nat × AccessorState :=
  match s.tls threadId with
  | some a => (a, s)
  | none =>
    (s.nextAccessorId,
      { tls := fun t => if t = threadId then some s.nextAccessorId else s.tls t
        mAccessors := s.mAccessors ++ [s.nextAccessorId]
        nextAccessorId := s.nextAccessorId + 1 })

/-- CoreThread::submitAccessors (lines 139-153): flush every accessor in a
copy of the registry, in registry order (then the synced accessor, which
lives outside the registry). The result lists the accessors flushed from
the registry. -/
def submitAccessors (s : AccessorState) : List Nat :=
  s.mAccessors

/-! ## The dispatcher transition system

A small-step model of the concurrent protocol of CmCoreThread.cpp: producer
threads submit commands (queueCommand / queueReturnCommand, non-core-thread
path), the consumer thread runs runCoreThread, completion is signalled
through commandCompletedNotify and observed by blockUntilCommandCompleted.
Each step is one lock-protected critical section of the source. -/

/-- The phase of one producer thread with respect to a blocking submission:
idle, blocked inside blockUntilCommandCompleted waiting for its command, or
returned from the blocking call. The phase records the exact queued command
the producer submitted. -/
inductive ProducerPhase where
  | idle
  | waiting (cmd : QueuedCommand)
  | returned (cmd : QueuedCommand)
deriving DecidableEq, Repr

/-- The control location of the consumer thread inside runCoreThread:
checking the queue under the lock (holding its reserved worker slot),
blocked in CM_THREAD_WAIT after addWorker, playing back a flushed batch,
or exited. -/
inductive ConsumerPhase where
  | checking
  | blocked
  | playing (batch : List QueuedCommand)
  | exited
deriving DecidableEq, Repr

/-- The shared state of the dispatcher protocol. executed is the log of
command invocations in order; submitted is the log of every successful
enqueue (ghost history, for the drain property); workersReserved counts
TaskScheduler removeWorker calls minus addWorker calls made by the
consumer. -/
structure SysState where
  queue : List QueuedCommand
  mMaxCommandNotifyId : Nat
  mCommandsCompleted : List Nat
  executed : List QueuedCommand
  submitted : List QueuedCommand
  producers : Nat → ProducerPhase
  consumer : ConsumerPhase
  mCoreThreadShutdown : Bool
  workersReserved : Nat

/-- Pointwise update of the producer-phase map. -/
def setProducer (f : Nat → ProducerPhase) (p : Nat) (v : ProducerPhase) :
    Nat → ProducerPhase :=
  fun q => if q = p then v else f q

/-- Initial state: empty queue, counter 0, consumer at the top of its loop
having already called removeWorker once (runCoreThread line 68). -/
def initState : SysState :=
  { queue := []
    mMaxCommandNotifyId := 0
    mCommandsCompleted := []
    executed := []
    submitted := []
    producers := fun _ => .idle
    consumer := .checking
    mCoreThreadShutdown := false
    workersReserved := 1 }

/-- One atomic step of the protocol. Queue operations model the spec
contract of the CommandQueue container (FIFO enqueue, flush swaps out the
whole pending batch, playback invokes each command once in order and calls
the notify callback for commands queued with notifyOnComplete). -/
inductive Step : SysState → SysState → Prop where
  /-- A producer p enqueues a blocking command (queueCommand or
  queueReturnCommand with blockUntilComplete, lines 165-181 and 194-210):
  under the queue lock the notify id mMaxCommandNotifyId is allocated and
  bumped; the producer then blocks in blockUntilCommandCompleted. -/
  | submitBlocking (s : SysState) (p c : Nat) (r : Bool)
      (hp : s.producers p = .idle) :
      Step s { s with
        queue := s.queue ++ [⟨c, r, true, s.mMaxCommandNotifyId⟩]
        submitted := s.submitted ++ [⟨c, r, true, s.mMaxCommandNotifyId⟩]
        mMaxCommandNotifyId := s.mMaxCommandNotifyId + 1
        producers := setProducer s.producers p
          (.waiting ⟨c, r, true, s.mMaxCommandNotifyId⟩) }
  /-- A producer enqueues a non-blocking command: no notify id is
  allocated and the counter is untouched. -/
  | submitAsync (s : SysState) (p c : Nat) (r : Bool)
      (hp : s.producers p = .idle) :
      Step s { s with
        queue := s.queue ++ [⟨c, r, false, 0⟩]
        submitted := s.submitted ++ [⟨c, r, false, 0⟩] }
  /-- A blocked producer wakes inside blockUntilCommandCompleted (lines
  229-248), finds its own id in mCommandsCompleted, erases that entry and
  returns. -/
  | producerWake (s : SysState) (p : Nat) (cmd : QueuedCommand)
      (hp : s.producers p = .waiting cmd)
      (hm : cmd.notifyId ∈ s.mCommandsCompleted) :
      Step s { s with
        mCommandsCompleted := s.mCommandsCompleted.erase cmd.notifyId
        producers := setProducer s.producers p (.returned cmd) }
  /-- A producer whose blocking call returned goes back to other work. -/
  | producerReset (s : SysState) (p : Nat) (cmd : QueuedCommand)
      (hp : s.producers p = .returned cmd) :
      Step s { s with producers := setProducer s.producers p .idle }
  /-- The consumer finds the queue non-empty and flushes it (line 94):
  the whole pending batch is swapped out under the lock. -/
  | consumerFlush (s : SysState)
      (hc : s.consumer = .checking) (hq : s.queue ≠ []) :
      Step s { s with queue := [], consumer := .playing s.queue }
  /-- The consumer plays back the next command of its batch (line 98):
  the command is invoked, and when it was queued with notifyOnComplete its
  id is appended to mCommandsCompleted (commandCompletedNotify, lines
  252-261) and the completion condition is broadcast. -/
  | consumerPlay (s : SysState) (cmd : QueuedCommand) (rest : List QueuedCommand)
      (hc : s.consumer = .playing (cmd :: rest)) :
      Step s { s with
        executed := s.executed ++ [cmd]
        mCommandsCompleted :=
          if cmd.notifyOnComplete then s.mCommandsCompleted ++ [cmd.notifyId]
          else s.mCommandsCompleted
        consumer := .playing rest }
  /-- The batch is fully played back; the consumer returns to the top of
  its loop. -/
  | consumerBatchDone (s : SysState)
      (hc : s.consumer = .playing []) :
      Step s { s with consumer := .checking }
  /-- Queue empty, no shutdown: the consumer calls addWorker (line 89) and
  waits on the queue-ready condition. -/
  | consumerSleep (s : SysState)
      (hc : s.consumer = .checking) (hq : s.queue = [])
      (hs : s.mCoreThreadShutdown = false) :
      Step s { s with consumer := .blocked
                      workersReserved := s.workersReserved - 1 }
  /-- The consumer wakes from CM_THREAD_WAIT (notified or spuriously) and
  calls removeWorker (line 91) before re-testing the queue. -/
  | consumerWake (s : SysState)
      (hc : s.consumer = .blocked) :
      Step s { s with consumer := .checking
                      workersReserved := s.workersReserved + 1 }
  /-- shutdownCoreThread (lines 103-117): set the shutdown flag under the
  queue lock and notify the consumer. -/
  | shutdownRequest (s : SysState) :
      Step s { s with mCoreThreadShutdown := true }
  /-- Queue empty and shutdown requested: the consumer calls addWorker
  (line 85) and exits runCoreThread. -/
  | consumerExit (s : SysState)
      (hc : s.consumer = .checking) (hq : s.queue = [])
      (hs : s.mCoreThreadShutdown = true) :
      Step s { s with consumer := .exited
                      workersReserved := s.workersReserved - 1 }

/-- A state reachable from the initial state by protocol steps. -/
def Reachable (s : SysState) : Prop :=
  Relation.ReflTransGen Step initState s

/-- The batch held at a consumer control location. -/
def consumerBatch : ConsumerPhase → List QueuedCommand
  | .playing b => b
  | _ => []

/-- The batch currently being played back by the consumer. -/
def batchOf (s : SysState) : List QueuedCommand :=
  consumerBatch s.consumer

/-- How many commands of l carry notify id `id`. -/
def countIdIn (l : List QueuedCommand) (id : Nat) : Nat :=
  l.countP (fun cmd => cmd.notifyOnComplete && cmd.notifyId == id)

/-- Total occurrences of notify id `id` across the pending queue, the
batch in playback and the executed log. -/
def occId (s : SysState) (id : Nat) : Nat :=
  countIdIn s.queue id + countIdIn (batchOf s) id + countIdIn s.executed id

/-- Total occurrences of the exact command `cmd` across the pending queue,
the batch in playback and the executed log. -/
def occCmd (s : SysState) (cmd : QueuedCommand) : Nat :=
  s.queue.count cmd + (batchOf s).count cmd + s.executed.count cmd

/-- The notify ids of all commands that are pending (queued or in the
batch being played back) and were queued with notifyOnComplete. -/
def pendingNotifyIds (s : SysState) : List Nat :=
  ((s.queue ++ batchOf s).filter (·.notifyOnComplete)).map (·.notifyId)

/-- Worker slots the consumer should hold at each control location: one
while checking or playing, zero while blocked in the wait or exited. -/
def workerOf : ConsumerPhase → Nat
  | .checking => 1
  | .blocked => 0
  | .playing _ => 1
  | .exited => 0

/-! ## The frame-arena invariant -/

/-- Shape invariant of the frame-arena state: the active index is 0 or 1
and the array still holds the two arenas created in the constructor,
identified by ids 0 and 1. -/
def FrameInv (s : FrameState) : Prop :=
  (s.mActiveFrameAlloc = 0 ∨ s.mActiveFrameAlloc = 1) ∧
  ∃ ca cb, s.mFrameAllocs = [⟨0, ca⟩, ⟨1, cb⟩]

/-- A concrete frame state with distinct contents in the two arenas. -/
def c2CexState : FrameState :=
  { mActiveFrameAlloc := 0, mFrameAllocs := [⟨0, [5]⟩, ⟨1, [7]⟩] }

/-- The inductive invariant of the dispatcher protocol. fresh: ids at or
above the counter occur nowhere; uniq: each notify id occurs at most once
across queue, batch and executed log; compLe: an id is completed no more
often than a command carrying it was executed; wait and ret: what holds of
a producer blocked in, or returned from, a blocking submission; log: the
ghost submission history equals executed ++ batch ++ queue; work: the
worker slots held by the consumer are determined by its control
location. -/
structure Inv (s : SysState) : Prop where
  fresh : ∀ id, s.mMaxCommandNotifyId ≤ id →
    occId s id = 0 ∧ s.mCommandsCompleted.count id = 0
  uniq : ∀ id, occId s id ≤ 1
  compLe : ∀ id, s.mCommandsCompleted.count id ≤ countIdIn s.executed id
  wait : ∀ p cmd, s.producers p = .waiting cmd →
    cmd.notifyOnComplete = true ∧ cmd.notifyId < s.mMaxCommandNotifyId ∧
    occId s cmd.notifyId = 1 ∧ occCmd s cmd = 1
  ret : ∀ p cmd, s.producers p = .returned cmd →
    cmd.notifyOnComplete = true ∧ cmd.notifyId < s.mMaxCommandNotifyId ∧
    s.executed.count cmd = 1 ∧ countIdIn s.queue cmd.notifyId = 0 ∧
    countIdIn (batchOf s) cmd.notifyId = 0
  log : s.submitted = s.executed ++ batchOf s ++ s.queue
  work : s.workersReserved = workerOf s.consumer

/-! ## A concrete run of the protocol

Three producers submit three commands (one blocking, two fire-and-forget,
one of them return-producing), shutdown is requested, the consumer drains
and plays all three, the blocked producer wakes, and the consumer exits. -/

def demo0 : SysState := initState

def demo1 : SysState := { demo0 with
  queue := demo0.queue ++ [⟨7, false, true, demo0.mMaxCommandNotifyId⟩]
  submitted := demo0.submitted ++ [⟨7, false, true, demo0.mMaxCommandNotifyId⟩]
  mMaxCommandNotifyId := demo0.mMaxCommandNotifyId + 1
  producers := setProducer demo0.producers 0
    (.waiting ⟨7, false, true, demo0.mMaxCommandNotifyId⟩) }

def demo2 : SysState := { demo1 with
  queue := demo1.queue ++ [⟨8, false, false, 0⟩]
  submitted := demo1.submitted ++ [⟨8, false, false, 0⟩] }

def demo3 : SysState := { demo2 with
  queue := demo2.queue ++ [⟨9, true, false, 0⟩]
  submitted := demo2.submitted ++ [⟨9, true, false, 0⟩] }

def demo4 : SysState := { demo3 with mCoreThreadShutdown := true }

def demo5 : SysState := { demo4 with queue := [], consumer := .playing demo4.queue }

def demo6 : SysState := { demo5 with
  executed := demo5.executed ++ [⟨7, false, true, 0⟩]
  mCommandsCompleted := demo5.mCommandsCompleted ++ [0]
  consumer := .playing [⟨8, false, false, 0⟩, ⟨9, true, false, 0⟩] }

def demo7 : SysState := { demo6 with
  executed := demo6.executed ++ [⟨8, false, false, 0⟩]
  consumer := .playing [⟨9, true, false, 0⟩] }

def demo8 : SysState := { demo7 with
  executed := demo7.executed ++ [⟨9, true, false, 0⟩]
  consumer := .playing [] }

def demo9 : SysState := { demo8 with consumer := .checking }

def demo10 : SysState := { demo9 with
  mCommandsCompleted := demo9.mCommandsCompleted.erase 0
  producers := setProducer demo9.producers 0 (.returned ⟨7, false, true, 0⟩) }

def demo11 : SysState := { demo10 with
  consumer := .exited
  workersReserved := demo10.workersReserved - 1 }

/-! ## Counting lemmas -/

theorem countIdIn_nil (id : Nat) : countIdIn [] id = 0 := rfl

theorem countIdIn_append (l₁ l₂ : List QueuedCommand) (id : Nat) :
    countIdIn (l₁ ++ l₂) id = countIdIn l₁ id + countIdIn l₂ id :=
  List.countP_append _ l₁ l₂

theorem countIdIn_cons (c : QueuedCommand) (l : List QueuedCommand) (id : Nat) :
    countIdIn (c :: l) id =
      countIdIn l id + (if c.notifyOnComplete ∧ c.notifyId = id then 1 else 0) := by
  by_cases h1 : c.notifyOnComplete <;> by_cases h2 : c.notifyId = id <;>
    simp [countIdIn, List.countP_cons, h1, h2]

theorem countIdIn_singleton (c : QueuedCommand) (id : Nat) :
    countIdIn [c] id = if c.notifyOnComplete ∧ c.notifyId = id then 1 else 0 := by
  rw [countIdIn_cons]
  simp [countIdIn]

theorem count_le_countIdIn (l : List QueuedCommand) (cmd : QueuedCommand)
    (h : cmd.notifyOnComplete = true) :
    l.count cmd ≤ countIdIn l cmd.notifyId := by
  induction l with
  | nil => simp [countIdIn]
  | cons a t ih =>
    rw [List.count_cons, countIdIn_cons]
    by_cases hac : a = cmd
    · subst hac
      simp [h]
      omega
    · simp [hac]
      omega

theorem count_notifyIds (l : List QueuedCommand) (id : Nat) :
    ((l.filter (·.notifyOnComplete)).map (·.notifyId)).count id = countIdIn l id := by
  induction l with
  | nil => rfl
  | cons c t ih =>
    by_cases h : c.notifyOnComplete
    · by_cases h2 : c.notifyId = id <;>
        simp [List.filter_cons, h, h2, List.count_cons, countIdIn_cons, ih]
    · simp [List.filter_cons, h, countIdIn_cons, ih]

theorem pendingNotifyIds_count (s : SysState) (id : Nat) :
    (pendingNotifyIds s).count id =
      countIdIn s.queue id + countIdIn (batchOf s) id := by
  unfold pendingNotifyIds
  rw [count_notifyIds, countIdIn_append]

/-! ## The protocol invariant -/

theorem inv_init : Inv initState := by
  refine ⟨?_, ?_, ?_, ?_, ?_, ?_, ?_⟩ <;>
    simp [initState, occId, countIdIn, batchOf, consumerBatch, workerOf]

theorem setProducer_self (f : Nat → ProducerPhase) (p : Nat) (v : ProducerPhase) :
    setProducer f p v p = v := by
  simp [setProducer]

theorem setProducer_other (f : Nat → ProducerPhase) (p : Nat) (v : ProducerPhase)
    (q : Nat) (h : ¬ q = p) : setProducer f p v q = f q := by
  simp [setProducer, h]

/-- Invariant transport along a step that leaves the queue, counter,
completed set, logs and producer map unchanged. -/
theorem inv_transport {s t : SysState} (h : Inv s)
    (hq : t.queue = s.queue)
    (hmax : t.mMaxCommandNotifyId = s.mMaxCommandNotifyId)
    (hcom : t.mCommandsCompleted = s.mCommandsCompleted)
    (hexe : t.executed = s.executed)
    (hsub : t.submitted = s.submitted)
    (hprod : t.producers = s.producers)
    (hb : batchOf t = batchOf s)
    (hwork : t.workersReserved = workerOf t.consumer) : Inv t := by
  have hocc : ∀ id, occId t id = occId s id := by
    intro id
    simp [occId, hq, hexe, hb]
  have hcnt : ∀ cmd, occCmd t cmd = occCmd s cmd := by
    intro cmd
    simp [occCmd, hq, hexe, hb]
  refine ⟨?_, ?_, ?_, ?_, ?_, ?_, ?_⟩
  · intro id hid
    rw [hmax] at hid
    rw [hocc, hcom]
    exact h.fresh id hid
  · intro id
    rw [hocc]
    exact h.uniq id
  · intro id
    rw [hcom, hexe]
    exact h.compLe id
  · intro q cmd hq0
    rw [hprod] at hq0
    obtain ⟨w1, w2, w3, w4⟩ := h.wait q cmd hq0
    exact ⟨w1, by rw [hmax]; exact w2, by rw [hocc]; exact w3, by rw [hcnt]; exact w4⟩
  · intro q cmd hq0
    rw [hprod] at hq0
    obtain ⟨r1, r2, r3, r4, r5⟩ := h.ret q cmd hq0
    exact ⟨r1, by rw [hmax]; exact r2, by rw [hexe]; exact r3,
      by rw [hq]; exact r4, by rw [hb]; exact r5⟩
  · rw [hsub, hexe, hb, hq]
    exact h.log
  · exact hwork

theorem inv_submitBlocking {s t : SysState} (h : Inv s) (p c : Nat) (r : Bool)
    (hp : s.producers p = .idle)
    (hq : t.queue = s.queue ++ [⟨c, r, true, s.mMaxCommandNotifyId⟩])
    (hsub : t.submitted = s.submitted ++ [⟨c, r, true, s.mMaxCommandNotifyId⟩])
    (hmax : t.mMaxCommandNotifyId = s.mMaxCommandNotifyId + 1)
    (hcom : t.mCommandsCompleted = s.mCommandsCompleted)
    (hexe : t.executed = s.executed)
    (hprod : t.producers = setProducer s.producers p
      (.waiting ⟨c, r, true, s.mMaxCommandNotifyId⟩))
    (hcons : t.consumer = s.consumer)
    (hwork : t.workersReserved = s.workersReserved) : Inv t := by
  have hb : batchOf t = batchOf s := by
    simp [batchOf, hcons]
  have hocc : ∀ id, occId t id =
      occId s id + (if s.mMaxCommandNotifyId = id then 1 else 0) := by
    intro id
    simp [occId, hq, hb, hexe, countIdIn_append, countIdIn_singleton]
    omega
  have hcnt : ∀ cmd : QueuedCommand, occCmd t cmd =
      occCmd s cmd +
        (if (⟨c, r, true, s.mMaxCommandNotifyId⟩ : QueuedCommand) = cmd
         then 1 else 0) := by
    intro cmd
    simp [occCmd, hq, hb, hexe, List.count_append, List.count_cons]
    omega
  refine ⟨?_, ?_, ?_, ?_, ?_, ?_, ?_⟩
  · intro id hid
    rw [hmax] at hid
    constructor
    · rw [hocc]
      have h1 := (h.fresh id (by omega)).1
      have hne : ¬ s.mMaxCommandNotifyId = id := by omega
      simp [h1, hne]
    · rw [hcom]
      exact (h.fresh id (by omega)).2
  · intro id
    rw [hocc]
    by_cases hm : s.mMaxCommandNotifyId = id
    · subst hm
      have h1 := (h.fresh _ (Nat.le_refl _)).1
      simp [h1]
    · have := h.uniq id
      simp [hm]
      omega
  · intro id
    rw [hcom, hexe]
    exact h.compLe id
  · intro q cmd hq0
    rw [hprod] at hq0
    by_cases hqp : q = p
    · subst hqp
      rw [setProducer_self] at hq0
      cases hq0
      refine ⟨rfl, ?_, ?_, ?_⟩
      · show s.mMaxCommandNotifyId < t.mMaxCommandNotifyId
        rw [hmax]
        omega
      · show occId t s.mMaxCommandNotifyId = 1
        rw [hocc]
        have h1 := (h.fresh _ (Nat.le_refl _)).1
        simp [h1]
      · rw [hcnt]
        have hz : occCmd s ⟨c, r, true, s.mMaxCommandNotifyId⟩ = 0 := by
          have h1 := (h.fresh _ (Nat.le_refl _)).1
          have e1 : s.queue.count ⟨c, r, true, s.mMaxCommandNotifyId⟩ ≤
              countIdIn s.queue s.mMaxCommandNotifyId :=
            count_le_countIdIn _ _ rfl
          have e2 : (batchOf s).count ⟨c, r, true, s.mMaxCommandNotifyId⟩ ≤
              countIdIn (batchOf s) s.mMaxCommandNotifyId :=
            count_le_countIdIn _ _ rfl
          have e3 : s.executed.count ⟨c, r, true, s.mMaxCommandNotifyId⟩ ≤
              countIdIn s.executed s.mMaxCommandNotifyId :=
            count_le_countIdIn _ _ rfl
          simp only [occId] at h1
          simp only [occCmd]
          omega
        simp [hz]
    · rw [setProducer_other _ _ _ _ hqp] at hq0
      obtain ⟨w1, w2, w3, w4⟩ := h.wait q cmd hq0
      refine ⟨w1, by rw [hmax]; omega, ?_, ?_⟩
      · rw [hocc]
        have hne : ¬ s.mMaxCommandNotifyId = cmd.notifyId := by omega
        simp [hne, w3]
      · rw [hcnt]
        have hne : ¬ (⟨c, r, true, s.mMaxCommandNotifyId⟩ : QueuedCommand) = cmd := by
          intro he
          have : cmd.notifyId = s.mMaxCommandNotifyId := by
            rw [← he]
          omega
        simp [hne, w4]
  · intro q cmd hq0
    rw [hprod] at hq0
    by_cases hqp : q = p
    · subst hqp
      rw [setProducer_self] at hq0
      simp at hq0
    · rw [setProducer_other _ _ _ _ hqp] at hq0
      obtain ⟨r1, r2, r3, r4, r5⟩ := h.ret q cmd hq0
      refine ⟨r1, by rw [hmax]; omega, by rw [hexe]; exact r3, ?_, by rw [hb]; exact r5⟩
      rw [hq, countIdIn_append, countIdIn_singleton]
      have hne : ¬ s.mMaxCommandNotifyId = cmd.notifyId := by omega
      simp [r4, hne]
  · rw [hsub, hexe, hb, hq, h.log]
    simp
  · rw [hwork, hcons]
    exact h.work

theorem inv_submitAsync {s t : SysState} (h : Inv s) (p c : Nat) (r : Bool)
    (_hp : s.producers p = .idle)
    (hq : t.queue = s.queue ++ [⟨c, r, false, 0⟩])
    (hsub : t.submitted = s.submitted ++ [⟨c, r, false, 0⟩])
    (hmax : t.mMaxCommandNotifyId = s.mMaxCommandNotifyId)
    (hcom : t.mCommandsCompleted = s.mCommandsCompleted)
    (hexe : t.executed = s.executed)
    (hprod : t.producers = s.producers)
    (hcons : t.consumer = s.consumer)
    (hwork : t.workersReserved = s.workersReserved) : Inv t := by
  have hb : batchOf t = batchOf s := by
    simp [batchOf, hcons]
  have hocc : ∀ id, occId t id = occId s id := by
    intro id
    simp [occId, hq, hb, hexe, countIdIn_append, countIdIn_singleton]
  have hcnt : ∀ cmd : QueuedCommand, cmd.notifyOnComplete = true →
      occCmd t cmd = occCmd s cmd := by
    intro cmd hcmd
    have hne : ¬ (⟨c, r, false, 0⟩ : QueuedCommand) = cmd := by
      intro he
      rw [← he] at hcmd
      simp at hcmd
    simp [occCmd, hq, hb, hexe, List.count_append, List.count_cons, hne]
  refine ⟨?_, ?_, ?_, ?_, ?_, ?_, ?_⟩
  · intro id hid
    rw [hmax] at hid
    rw [hocc, hcom]
    exact h.fresh id hid
  · intro id
    rw [hocc]
    exact h.uniq id
  · intro id
    rw [hcom, hexe]
    exact h.compLe id
  · intro q cmd hq0
    rw [hprod] at hq0
    obtain ⟨w1, w2, w3, w4⟩ := h.wait q cmd hq0
    exact ⟨w1, by rw [hmax]; exact w2, by rw [hocc]; exact w3,
      by rw [hcnt cmd w1]; exact w4⟩
  · intro q cmd hq0
    rw [hprod] at hq0
    obtain ⟨r1, r2, r3, r4, r5⟩ := h.ret q cmd hq0
    refine ⟨r1, by rw [hmax]; exact r2, by rw [hexe]; exact r3, ?_,
      by rw [hb]; exact r5⟩
    rw [hq, countIdIn_append, countIdIn_singleton]
    simp [r4]
  · rw [hsub, hexe, hb, hq, h.log]
    simp
  · rw [hwork, hcons]
    exact h.work

theorem inv_producerWake {s t : SysState} (h : Inv s) (p : Nat)
    (cmd : QueuedCommand)
    (hp : s.producers p = .waiting cmd)
    (hm : cmd.notifyId ∈ s.mCommandsCompleted)
    (hq : t.queue = s.queue)
    (hsub : t.submitted = s.submitted)
    (hmax : t.mMaxCommandNotifyId = s.mMaxCommandNotifyId)
    (hcom : t.mCommandsCompleted = s.mCommandsCompleted.erase cmd.notifyId)
    (hexe : t.executed = s.executed)
    (hprod : t.producers = setProducer s.producers p (.returned cmd))
    (hcons : t.consumer = s.consumer)
    (hwork : t.workersReserved = s.workersReserved) : Inv t := by
  have hb : batchOf t = batchOf s := by
    simp [batchOf, hcons]
  have hocc : ∀ id, occId t id = occId s id := by
    intro id
    simp [occId, hq, hb, hexe]
  have hcnt : ∀ cmd0, occCmd t cmd0 = occCmd s cmd0 := by
    intro cmd0
    simp [occCmd, hq, hb, hexe]
  obtain ⟨w1, w2, w3, w4⟩ := h.wait p cmd hp
  have hcmp1 : 1 ≤ s.mCommandsCompleted.count cmd.notifyId :=
    List.one_le_count_iff.mpr hm
  have hcmp2 := h.compLe cmd.notifyId
  have hsplit : countIdIn s.queue cmd.notifyId = 0 ∧
      countIdIn (batchOf s) cmd.notifyId = 0 ∧
      countIdIn s.executed cmd.notifyId = 1 := by
    simp only [occId] at w3
    omega
  have hexeCount : s.executed.count cmd = 1 := by
    have e1 : s.queue.count cmd ≤ countIdIn s.queue cmd.notifyId :=
      count_le_countIdIn _ _ w1
    have e2 : (batchOf s).count cmd ≤ countIdIn (batchOf s) cmd.notifyId :=
      count_le_countIdIn _ _ w1
    have e3 : s.executed.count cmd ≤ countIdIn s.executed cmd.notifyId :=
      count_le_countIdIn _ _ w1
    simp only [occCmd] at w4
    omega
  refine ⟨?_, ?_, ?_, ?_, ?_, ?_, ?_⟩
  · intro id hid
    rw [hmax] at hid
    refine ⟨by rw [hocc]; exact (h.fresh id hid).1, ?_⟩
    rw [hcom]
    by_cases hi : id = cmd.notifyId
    · subst hi
      rw [List.count_erase_self]
      have := (h.fresh _ hid).2
      omega
    · rw [List.count_erase_of_ne hi]
      exact (h.fresh id hid).2
  · intro id
    rw [hocc]
    exact h.uniq id
  · intro id
    rw [hcom, hexe]
    by_cases hi : id = cmd.notifyId
    · subst hi
      rw [List.count_erase_self]
      have := h.compLe cmd.notifyId
      omega
    · rw [List.count_erase_of_ne hi]
      exact h.compLe id
  · intro q cmd0 hq0
    rw [hprod] at hq0
    by_cases hqp : q = p
    · subst hqp
      rw [setProducer_self] at hq0
      simp at hq0
    · rw [setProducer_other _ _ _ _ hqp] at hq0
      obtain ⟨u1, u2, u3, u4⟩ := h.wait q cmd0 hq0
      exact ⟨u1, by rw [hmax]; exact u2, by rw [hocc]; exact u3,
        by rw [hcnt]; exact u4⟩
  · intro q cmd0 hq0
    rw [hprod] at hq0
    by_cases hqp : q = p
    · subst hqp
      rw [setProducer_self] at hq0
      cases hq0
      exact ⟨w1, by rw [hmax]; exact w2, by rw [hexe]; exact hexeCount,
        by rw [hq]; exact hsplit.1, by rw [hb]; exact hsplit.2.1⟩
    · rw [setProducer_other _ _ _ _ hqp] at hq0
      obtain ⟨r1, r2, r3, r4, r5⟩ := h.ret q cmd0 hq0
      exact ⟨r1, by rw [hmax]; exact r2, by rw [hexe]; exact r3,
        by rw [hq]; exact r4, by rw [hb]; exact r5⟩
  · rw [hsub, hexe, hb, hq]
    exact h.log
  · rw [hwork, hcons]
    exact h.work

theorem inv_producerReset {s t : SysState} (h : Inv s) (p : Nat)
    (cmd : QueuedCommand)
    (_hp : s.producers p = .returned cmd)
    (hq : t.queue = s.queue)
    (hsub : t.submitted = s.submitted)
    (hmax : t.mMaxCommandNotifyId = s.mMaxCommandNotifyId)
    (hcom : t.mCommandsCompleted = s.mCommandsCompleted)
    (hexe : t.executed = s.executed)
    (hprod : t.producers = setProducer s.producers p .idle)
    (hcons : t.consumer = s.consumer)
    (hwork : t.workersReserved = s.workersReserved) : Inv t := by
  have hb : batchOf t = batchOf s := by
    simp [batchOf, hcons]
  have hocc : ∀ id, occId t id = occId s id := by
    intro id
    simp [occId, hq, hb, hexe]
  have hcnt : ∀ cmd0, occCmd t cmd0 = occCmd s cmd0 := by
    intro cmd0
    simp [occCmd, hq, hb, hexe]
  refine ⟨?_, ?_, ?_, ?_, ?_, ?_, ?_⟩
  · intro id hid
    rw [hmax] at hid
    rw [hocc, hcom]
    exact h.fresh id hid
  · intro id
    rw [hocc]
    exact h.uniq id
  · intro id
    rw [hcom, hexe]
    exact h.compLe id
  · intro q cmd0 hq0
    rw [hprod] at hq0
    by_cases hqp : q = p
    · subst hqp
      rw [setProducer_self] at hq0
      simp at hq0
    · rw [setProducer_other _ _ _ _ hqp] at hq0
      obtain ⟨u1, u2, u3, u4⟩ := h.wait q cmd0 hq0
      exact ⟨u1, by rw [hmax]; exact u2, by rw [hocc]; exact u3,
        by rw [hcnt]; exact u4⟩
  · intro q cmd0 hq0
    rw [hprod] at hq0
    by_cases hqp : q = p
    · subst hqp
      rw [setProducer_self] at hq0
      simp at hq0
    · rw [setProducer_other _ _ _ _ hqp] at hq0
      obtain ⟨r1, r2, r3, r4, r5⟩ := h.ret q cmd0 hq0
      exact ⟨r1, by rw [hmax]; exact r2, by rw [hexe]; exact r3,
        by rw [hq]; exact r4, by rw [hb]; exact r5⟩
  · rw [hsub, hexe, hb, hq]
    exact h.log
  · rw [hwork, hcons]
    exact h.work

theorem inv_consumerFlush {s t : SysState} (h : Inv s)
    (hc : s.consumer = .checking) (_hqne : s.queue ≠ [])
    (hq : t.queue = [])
    (hsub : t.submitted = s.submitted)
    (hmax : t.mMaxCommandNotifyId = s.mMaxCommandNotifyId)
    (hcom : t.mCommandsCompleted = s.mCommandsCompleted)
    (hexe : t.executed = s.executed)
    (hprod : t.producers = s.producers)
    (hcons : t.consumer = .playing s.queue)
    (hwork : t.workersReserved = s.workersReserved) : Inv t := by
  have hbs : batchOf s = [] := by
    simp [batchOf, hc, consumerBatch]
  have hbt : batchOf t = s.queue := by
    simp [batchOf, hcons, consumerBatch]
  have hocc : ∀ id, occId t id = occId s id := by
    intro id
    simp [occId, hq, hbt, hbs, hexe, countIdIn_nil]
    try omega
  have hcnt : ∀ cmd0, occCmd t cmd0 = occCmd s cmd0 := by
    intro cmd0
    simp [occCmd, hq, hbt, hbs, hexe]
    try omega
  refine ⟨?_, ?_, ?_, ?_, ?_, ?_, ?_⟩
  · intro id hid
    rw [hmax] at hid
    rw [hocc, hcom]
    exact h.fresh id hid
  · intro id
    rw [hocc]
    exact h.uniq id
  · intro id
    rw [hcom, hexe]
    exact h.compLe id
  · intro q cmd0 hq0
    rw [hprod] at hq0
    obtain ⟨u1, u2, u3, u4⟩ := h.wait q cmd0 hq0
    exact ⟨u1, by rw [hmax]; exact u2, by rw [hocc]; exact u3,
      by rw [hcnt]; exact u4⟩
  · intro q cmd0 hq0
    rw [hprod] at hq0
    obtain ⟨r1, r2, r3, r4, r5⟩ := h.ret q cmd0 hq0
    exact ⟨r1, by rw [hmax]; exact r2, by rw [hexe]; exact r3,
      by rw [hq]; exact rfl, by rw [hbt]; exact r4⟩
  · rw [hsub, hexe, hbt, hq, h.log, hbs]
    simp
  · rw [hwork, hcons, h.work, hc]
    simp [workerOf]

theorem inv_consumerPlay {s t : SysState} (h : Inv s)
    (cmd : QueuedCommand) (rest : List QueuedCommand)
    (hc : s.consumer = .playing (cmd :: rest))
    (hq : t.queue = s.queue)
    (hsub : t.submitted = s.submitted)
    (hmax : t.mMaxCommandNotifyId = s.mMaxCommandNotifyId)
    (hcom : t.mCommandsCompleted =
      if cmd.notifyOnComplete then s.mCommandsCompleted ++ [cmd.notifyId]
      else s.mCommandsCompleted)
    (hexe : t.executed = s.executed ++ [cmd])
    (hprod : t.producers = s.producers)
    (hcons : t.consumer = .playing rest)
    (hwork : t.workersReserved = s.workersReserved) : Inv t := by
  have hbs : batchOf s = cmd :: rest := by
    simp [batchOf, hc, consumerBatch]
  have hbt : batchOf t = rest := by
    simp [batchOf, hcons, consumerBatch]
  have hocc : ∀ id, occId t id = occId s id := by
    intro id
    simp [occId, hq, hbt, hbs, hexe, countIdIn_append, countIdIn_singleton,
      countIdIn_cons, countIdIn_nil]
    try omega
  have hcnt : ∀ cmd0, occCmd t cmd0 = occCmd s cmd0 := by
    intro cmd0
    simp [occCmd, hq, hbt, hbs, hexe, List.count_append, List.count_cons,
      List.count_nil]
    try omega
  have hcc : ∀ id, t.mCommandsCompleted.count id = s.mCommandsCompleted.count id +
      (if cmd.notifyOnComplete ∧ cmd.notifyId = id then 1 else 0) := by
    intro id
    by_cases hn : cmd.notifyOnComplete
    · by_cases hi : cmd.notifyId = id <;>
        simp [hcom, hn, hi, List.count_append, List.count_cons]
    · simp [hcom, hn]
  refine ⟨?_, ?_, ?_, ?_, ?_, ?_, ?_⟩
  · intro id hid
    rw [hmax] at hid
    refine ⟨by rw [hocc]; exact (h.fresh id hid).1, ?_⟩
    rw [hcc]
    have h1 := (h.fresh id hid).2
    have h2 : ¬ (cmd.notifyOnComplete = true ∧ cmd.notifyId = id) := by
      rintro ⟨hn, hi⟩
      have h3 := (h.fresh id hid).1
      simp only [occId] at h3
      have h4 : 1 ≤ countIdIn (batchOf s) id := by
        rw [hbs, countIdIn_cons]
        simp [hn, hi]
      omega
    simp [h1, h2]
  · intro id
    rw [hocc]
    exact h.uniq id
  · intro id
    rw [hcc]
    have h1 : countIdIn t.executed id = countIdIn s.executed id +
        (if cmd.notifyOnComplete ∧ cmd.notifyId = id then 1 else 0) := by
      rw [hexe, countIdIn_append, countIdIn_singleton]
    rw [h1]
    have := h.compLe id
    omega
  · intro q cmd0 hq0
    rw [hprod] at hq0
    obtain ⟨u1, u2, u3, u4⟩ := h.wait q cmd0 hq0
    exact ⟨u1, by rw [hmax]; exact u2, by rw [hocc]; exact u3,
      by rw [hcnt]; exact u4⟩
  · intro q cmd0 hq0
    rw [hprod] at hq0
    obtain ⟨r1, r2, r3, r4, r5⟩ := h.ret q cmd0 hq0
    have hbatch0 : countIdIn rest cmd0.notifyId = 0 ∧
        ¬ (cmd.notifyOnComplete = true ∧ cmd.notifyId = cmd0.notifyId) := by
      rw [hbs, countIdIn_cons] at r5
      constructor
      · omega
      · rintro ⟨hn, hi⟩
        simp [hn, hi] at r5
    have hcmdne : ¬ cmd = cmd0 := by
      intro he
      exact hbatch0.2 ⟨by rw [he]; exact r1, by rw [he]⟩
    refine ⟨r1, by rw [hmax]; exact r2, ?_, by rw [hq]; exact r4,
      by rw [hbt]; exact hbatch0.1⟩
    rw [hexe, List.count_append, List.count_cons]
    simp [hcmdne, r3]
  · rw [hsub, hexe, hbt, hq, h.log, hbs]
    simp
  · rw [hwork, hcons, h.work, hc]
    simp [workerOf]

/-- Every protocol step preserves the invariant. -/
theorem inv_step {s s' : SysState} (h : Inv s) (hstep : Step s s') : Inv s' := by
  cases hstep with
  | submitBlocking p c r hp =>
    exact inv_submitBlocking h p c r hp rfl rfl rfl rfl rfl rfl rfl rfl
  | submitAsync p c r hp =>
    exact inv_submitAsync h p c r hp rfl rfl rfl rfl rfl rfl rfl rfl
  | producerWake p cmd hp hm =>
    exact inv_producerWake h p cmd hp hm rfl rfl rfl rfl rfl rfl rfl rfl
  | producerReset p cmd hp =>
    exact inv_producerReset h p cmd hp rfl rfl rfl rfl rfl rfl rfl rfl
  | consumerFlush hc hq =>
    exact inv_consumerFlush h hc hq rfl rfl rfl rfl rfl rfl rfl rfl
  | consumerPlay cmd rest hc =>
    exact inv_consumerPlay h cmd rest hc rfl rfl rfl rfl rfl rfl rfl rfl
  | consumerBatchDone hc =>
    refine inv_transport h rfl rfl rfl rfl rfl rfl ?_ ?_
    · simp [batchOf, hc, consumerBatch]
    · rw [h.work, hc]
      simp [workerOf]
  | consumerSleep hc hq hs =>
    refine inv_transport h rfl rfl rfl rfl rfl rfl ?_ ?_
    · simp [batchOf, hc, consumerBatch]
    · rw [h.work, hc]
      simp [workerOf]
  | consumerWake hc =>
    refine inv_transport h rfl rfl rfl rfl rfl rfl ?_ ?_
    · simp [batchOf, hc, consumerBatch]
    · rw [h.work, hc]
      simp [workerOf]
  | shutdownRequest =>
    exact inv_transport h rfl rfl rfl rfl rfl rfl rfl (by rw [h.work])
  | consumerExit hc hq hs =>
    refine inv_transport h rfl rfl rfl rfl rfl rfl ?_ ?_
    · simp [batchOf, hc, consumerBatch]
    · rw [h.work, hc]
      simp [workerOf]

/-- The protocol invariant holds in every reachable state. -/
theorem reachable_inv {s : SysState} (h : Reachable s) : Inv s := by
  induction h with
  | refl => exact inv_init
  | tail _ hstep ih => exact inv_step ih hstep

/-! ## Step inversion lemmas -/

/-- The notify counter never decreases across a step. -/
theorem step_max_mono {s s' : SysState} (hstep : Step s s') :
    s.mMaxCommandNotifyId ≤ s'.mMaxCommandNotifyId := by
  cases hstep <;> simp

/-- A producer passes from waiting to returned only through the
producerWake step: for its own command, with its id found in the completed
set, erasing that entry. -/
theorem step_wake_inversion {s s' : SysState} {p : Nat}
    {cmd cmd' : QueuedCommand}
    (hstep : Step s s') (hw : s.producers p = .waiting cmd)
    (hr : s'.producers p = .returned cmd') :
    cmd' = cmd ∧ cmd.notifyId ∈ s.mCommandsCompleted ∧
    s'.mCommandsCompleted = s.mCommandsCompleted.erase cmd.notifyId := by
  cases hstep with
  | submitBlocking p0 c r hp =>
    have hr2 : setProducer s.producers p0
        (.waiting ⟨c, r, true, s.mMaxCommandNotifyId⟩) p = .returned cmd' := hr
    by_cases hpp : p = p0
    · subst hpp
      rw [setProducer_self] at hr2
      simp at hr2
    · rw [setProducer_other _ _ _ _ hpp, hw] at hr2
      simp at hr2
  | submitAsync p0 c r hp =>
    have hr2 : s.producers p = .returned cmd' := hr
    rw [hw] at hr2
    simp at hr2
  | producerWake p0 cmd0 hp hm =>
    have hr2 : setProducer s.producers p0 (.returned cmd0) p = .returned cmd' := hr
    by_cases hpp : p = p0
    · subst hpp
      rw [setProducer_self] at hr2
      cases hr2
      rw [hw] at hp
      cases hp
      exact ⟨rfl, hm, rfl⟩
    · rw [setProducer_other _ _ _ _ hpp, hw] at hr2
      simp at hr2
  | producerReset p0 cmd0 hp =>
    have hr2 : setProducer s.producers p0 .idle p = .returned cmd' := hr
    by_cases hpp : p = p0
    · subst hpp
      rw [setProducer_self] at hr2
      simp at hr2
    · rw [setProducer_other _ _ _ _ hpp, hw] at hr2
      simp at hr2
  | consumerFlush hc hq =>
    have hr2 : s.producers p = .returned cmd' := hr
    rw [hw] at hr2
    simp at hr2
  | consumerPlay cmd0 rest hc =>
    have hr2 : s.producers p = .returned cmd' := hr
    rw [hw] at hr2
    simp at hr2
  | consumerBatchDone hc =>
    have hr2 : s.producers p = .returned cmd' := hr
    rw [hw] at hr2
    simp at hr2
  | consumerSleep hc hq hs =>
    have hr2 : s.producers p = .returned cmd' := hr
    rw [hw] at hr2
    simp at hr2
  | consumerWake hc =>
    have hr2 : s.producers p = .returned cmd' := hr
    rw [hw] at hr2
    simp at hr2
  | shutdownRequest =>
    have hr2 : s.producers p = .returned cmd' := hr
    rw [hw] at hr2
    simp at hr2
  | consumerExit hc hq hs =>
    have hr2 : s.producers p = .returned cmd' := hr
    rw [hw] at hr2
    simp at hr2

/-- The consumer exits only from the top of its loop, with the queue
already empty, after shutdown was requested, giving back its worker
slot and leaving the logs untouched. -/
theorem step_exit_inversion {s s' : SysState}
    (hstep : Step s s') (hne : ¬ s.consumer = .exited)
    (hex : s'.consumer = .exited) :
    s.consumer = .checking ∧ s.queue = [] ∧ s.mCoreThreadShutdown = true ∧
    s'.queue = s.queue ∧ s'.executed = s.executed ∧
    s'.submitted = s.submitted ∧
    s'.workersReserved = s.workersReserved - 1 := by
  cases hstep with
  | submitBlocking p0 c r hp =>
    exact absurd (show s.consumer = .exited from hex) hne
  | submitAsync p0 c r hp =>
    exact absurd (show s.consumer = .exited from hex) hne
  | producerWake p0 cmd0 hp hm =>
    exact absurd (show s.consumer = .exited from hex) hne
  | producerReset p0 cmd0 hp =>
    exact absurd (show s.consumer = .exited from hex) hne
  | consumerFlush hc hq =>
    have : ConsumerPhase.playing s.queue = .exited := hex
    simp at this
  | consumerPlay cmd0 rest hc =>
    have : ConsumerPhase.playing rest = .exited := hex
    simp at this
  | consumerBatchDone hc =>
    have : ConsumerPhase.checking = .exited := hex
    simp at this
  | consumerSleep hc hq hs =>
    have : ConsumerPhase.blocked = .exited := hex
    simp at this
  | consumerWake hc =>
    have : ConsumerPhase.checking = .exited := hex
    simp at this
  | shutdownRequest =>
    exact absurd (show s.consumer = .exited from hex) hne
  | consumerExit hc hq hs =>
    exact ⟨hc, hq, hs, rfl, rfl, rfl, rfl⟩

/-- The consumer passes from checking to blocked only through the sleep
step: queue empty, shutdown not requested, one worker slot given back
(addWorker immediately before the wait). -/
theorem step_sleep_inversion {s s' : SysState}
    (hstep : Step s s') (hc : s.consumer = .checking)
    (hb : s'.consumer = .blocked) :
    s.queue = [] ∧ s.mCoreThreadShutdown = false ∧
    s'.workersReserved = s.workersReserved - 1 := by
  cases hstep with
  | submitBlocking p0 c r hp =>
    have : s.consumer = .blocked := hb
    rw [hc] at this
    simp at this
  | submitAsync p0 c r hp =>
    have : s.consumer = .blocked := hb
    rw [hc] at this
    simp at this
  | producerWake p0 cmd0 hp hm =>
    have : s.consumer = .blocked := hb
    rw [hc] at this
    simp at this
  | producerReset p0 cmd0 hp =>
    have : s.consumer = .blocked := hb
    rw [hc] at this
    simp at this
  | consumerFlush hc0 hq =>
    have : ConsumerPhase.playing s.queue = .blocked := hb
    simp at this
  | consumerPlay cmd0 rest hc0 =>
    have : ConsumerPhase.playing rest = .blocked := hb
    simp at this
  | consumerBatchDone hc0 =>
    have : ConsumerPhase.checking = .blocked := hb
    simp at this
  | consumerSleep hc0 hq hs =>
    exact ⟨hq, hs, rfl⟩
  | consumerWake hc0 =>
    have : ConsumerPhase.checking = .blocked := hb
    simp at this
  | shutdownRequest =>
    have : s.consumer = .blocked := hb
    rw [hc] at this
    simp at this
  | consumerExit hc0 hq hs =>
    have : ConsumerPhase.exited = .blocked := hb
    simp at this

/-- The consumer passes from blocked back to checking only through the
wake step, reclaiming one worker slot (removeWorker immediately after the
wait, before the queue is tested again). -/
theorem step_wakeup_inversion {s s' : SysState}
    (hstep : Step s s') (hb : s.consumer = .blocked)
    (hc : s'.consumer = .checking) :
    s'.workersReserved = s.workersReserved + 1 ∧ s'.queue = s.queue := by
  cases hstep with
  | submitBlocking p0 c r hp =>
    have : s.consumer = .checking := hc
    rw [hb] at this
    simp at this
  | submitAsync p0 c r hp =>
    have : s.consumer = .checking := hc
    rw [hb] at this
    simp at this
  | producerWake p0 cmd0 hp hm =>
    have : s.consumer = .checking := hc
    rw [hb] at this
    simp at this
  | producerReset p0 cmd0 hp =>
    have : s.consumer = .checking := hc
    rw [hb] at this
    simp at this
  | consumerFlush hc0 hq =>
    rw [hb] at hc0
    simp at hc0
  | consumerPlay cmd0 rest hc0 =>
    rw [hb] at hc0
    simp at hc0
  | consumerBatchDone hc0 =>
    rw [hb] at hc0
    simp at hc0
  | consumerSleep hc0 hq hs =>
    rw [hb] at hc0
    simp at hc0
  | consumerWake hc0 =>
    exact ⟨rfl, rfl⟩
  | shutdownRequest =>
    have : s.consumer = .checking := hc
    rw [hb] at this
    simp at this
  | consumerExit hc0 hq hs =>
    rw [hb] at hc0
    simp at hc0

theorem step_demo01 : Step demo0 demo1 :=
  Step.submitBlocking demo0 0 7 false rfl

theorem step_demo12 : Step demo1 demo2 :=
  Step.submitAsync demo1 1 8 false rfl

theorem step_demo23 : Step demo2 demo3 :=
  Step.submitAsync demo2 2 9 true rfl

theorem step_demo34 : Step demo3 demo4 :=
  Step.shutdownRequest demo3

theorem step_demo45 : Step demo4 demo5 :=
  Step.consumerFlush demo4 rfl (by decide)

theorem step_demo56 : Step demo5 demo6 :=
  Step.consumerPlay demo5 ⟨7, false, true, 0⟩
    [⟨8, false, false, 0⟩, ⟨9, true, false, 0⟩] rfl

theorem step_demo67 : Step demo6 demo7 :=
  Step.consumerPlay demo6 ⟨8, false, false, 0⟩ [⟨9, true, false, 0⟩] rfl

theorem step_demo78 : Step demo7 demo8 :=
  Step.consumerPlay demo7 ⟨9, true, false, 0⟩ [] rfl

theorem step_demo89 : Step demo8 demo9 :=
  Step.consumerBatchDone demo8 rfl

theorem step_demo910 : Step demo9 demo10 :=
  Step.producerWake demo9 0 ⟨7, false, true, 0⟩ rfl (by decide)

theorem step_demo1011 : Step demo10 demo11 :=
  Step.consumerExit demo10 rfl rfl rfl

theorem reach_demo5 : Reachable demo5 :=
  .tail (.tail (.tail (.tail (.tail .refl step_demo01) step_demo12)
    step_demo23) step_demo34) step_demo45

theorem reach_demo8 : Reachable demo8 :=
  .tail (.tail (.tail reach_demo5 step_demo56) step_demo67) step_demo78

theorem reach_demo9 : Reachable demo9 :=
  .tail reach_demo8 step_demo89

theorem reach_demo10 : Reachable demo10 :=
  .tail reach_demo9 step_demo910

theorem frameInv_init : FrameInv initFrameState :=
  ⟨Or.inl rfl, [], [], rfl⟩

theorem frameInv_update {s : FrameState} (h : FrameInv s) : FrameInv (update s) := by
  obtain ⟨hact, ca, cb, hl⟩ := h
  rcases hact with h0 | h1
  · exact ⟨Or.inr (by simp [update, h0]), ca, [],
      by simp [update, h0, hl, clearAt, FrameAlloc.clear]⟩
  · exact ⟨Or.inl (by simp [update, h1]), [], cb,
      by simp [update, h1, hl, clearAt, FrameAlloc.clear]⟩

theorem frameInv_iter (n : Nat) : FrameInv (update^[n] initFrameState) := by
  induction n with
  | zero => exact frameInv_init
  | succ n ih =>
    rw [Function.iterate_succ_apply']
    exact frameInv_update ih

/-- C2 counterexample: on a state with active arena 0 and distinct
contents in the two arenas, update does not clear the now-inactive arena
(index 0, the one active before the call) and does not leave the newly
active arena (index 1) untouched. -/
theorem update_c2_claim_counterexample : ¬ C2ClaimAt c2CexState := by
  unfold C2ClaimAt
  decide

/-- C2 (amended): update flips the active-arena parity and clears the
newly active arena (the one that was inactive before the call), leaving
the now-inactive (previously active) arena untouched; getFrameAlloc
afterwards returns the newly active, just-cleared arena. -/
theorem update_clears_newly_active_arena (s : FrameState)
    (h0 : s.mActiveFrameAlloc < 2) (h1 : s.mFrameAllocs.length = 2) :
    (update s).mActiveFrameAlloc = (s.mActiveFrameAlloc + 1) % 2 ∧
    (update s).mFrameAllocs.get? ((s.mActiveFrameAlloc + 1) % 2) =
      (s.mFrameAllocs.get? ((s.mActiveFrameAlloc + 1) % 2)).map FrameAlloc.clear ∧
    (update s).mFrameAllocs.get? s.mActiveFrameAlloc =
      s.mFrameAllocs.get? s.mActiveFrameAlloc ∧
    getFrameAlloc (update s) =
      (s.mFrameAllocs.get? ((s.mActiveFrameAlloc + 1) % 2)).map FrameAlloc.clear := by
  obtain ⟨i, l⟩ := s
  simp only at h0 h1
  obtain ⟨a, b, rfl⟩ := List.length_eq_two.mp h1
  have hi : i = 0 ∨ i = 1 := by omega
  rcases hi with rfl | rfl <;>
    simp [update, clearAt, getFrameAlloc]

/-- C2 witness: the amended statement evaluated on a state with active
index 0 and contents [5] and [7] in the two arenas. -/
theorem update_clears_newly_active_arena_witness :
    (update c2CexState).mActiveFrameAlloc = (c2CexState.mActiveFrameAlloc + 1) % 2 ∧
    (update c2CexState).mFrameAllocs.get? ((c2CexState.mActiveFrameAlloc + 1) % 2) =
      (c2CexState.mFrameAllocs.get?
        ((c2CexState.mActiveFrameAlloc + 1) % 2)).map FrameAlloc.clear ∧
    (update c2CexState).mFrameAllocs.get? c2CexState.mActiveFrameAlloc =
      c2CexState.mFrameAllocs.get? c2CexState.mActiveFrameAlloc ∧
    getFrameAlloc (update c2CexState) =
      (c2CexState.mFrameAllocs.get?
        ((c2CexState.mActiveFrameAlloc + 1) % 2)).map FrameAlloc.clear :=
  update_clears_newly_active_arena c2CexState (by decide) (by decide)

/-- C10: the active-frame-arena index starts at 0, update maps it by
(i + 1) % 2, and after any number of updates it stays below 2, the array
keeps its two elements, and getFrameAlloc returns one of the two FrameAlloc
objects created in the constructor (ids 0 and 1) — never none, never out
of bounds. -/
theorem frame_alloc_always_in_bounds (n : Nat) :
    initFrameState.mActiveFrameAlloc = 0 ∧
    (∀ s : FrameState, (update s).mActiveFrameAlloc = (s.mActiveFrameAlloc + 1) % 2) ∧
    (update^[n] initFrameState).mActiveFrameAlloc < 2 ∧
    (update^[n] initFrameState).mFrameAllocs.length = 2 ∧
    ∃ f, getFrameAlloc (update^[n] initFrameState) = some f ∧
      (f.id = 0 ∨ f.id = 1) := by
  refine ⟨rfl, fun s => rfl, ?_⟩
  obtain ⟨hact, ca, cb, hl⟩ := frameInv_iter n
  rcases hact with h0 | h1
  · exact ⟨by omega, by rw [hl]; rfl,
      ⟨0, ca⟩, by simp [getFrameAlloc, h0, hl], Or.inl rfl⟩
  · exact ⟨by omega, by rw [hl]; rfl,
      ⟨1, cb⟩, by simp [getFrameAlloc, h1, hl], Or.inr rfl⟩

/-- C6: calling a consumer-only operation from a non-consumer thread, and
a non-consumer operation from the consumer thread, always raises the
InternalError fault with the message of the source, and the guards succeed
in exactly the opposite situations — deterministic, never silently
succeeding. -/
theorem thread_affinity_guards (currentThreadId coreThreadId : Nat) :
    (¬ currentThreadId = coreThreadId →
      throwIfNotCoreThread currentThreadId coreThreadId =
        .error (.InternalError
          "This method can only be accessed from the core thread.")) ∧
    (currentThreadId = coreThreadId →
      throwIfNotCoreThread currentThreadId coreThreadId = .ok ()) ∧
    (currentThreadId = coreThreadId →
      throwIfCoreThread currentThreadId coreThreadId =
        .error (.InternalError
          "This method cannot be accessed from the core thread.")) ∧
    (¬ currentThreadId = coreThreadId →
      throwIfCoreThread currentThreadId coreThreadId = .ok ()) := by
  refine ⟨?_, ?_, ?_, ?_⟩ <;> intro h <;>
    simp [throwIfNotCoreThread, throwIfCoreThread, h]

/-- C3: called from the thread recorded as the consumer thread, both
queueCommand and queueReturnCommand execute the callback synchronously on
the calling thread and return, with nothing enqueued, the notify counter
untouched, no notify id allocated to the call, and the consumer condition
not signalled; the returned AsyncOp is already populated. -/
theorem queue_command_on_core_thread_synchronous
    (currentThreadId coreThreadId callbackId : Nat)
    (blockUntilComplete : Bool) (queue : List QueuedCommand) (mMax : Nat)
    (h : currentThreadId = coreThreadId) :
    queueCommand currentThreadId coreThreadId callbackId
        blockUntilComplete queue mMax =
      { queue := queue
        mMaxCommandNotifyId := mMax
        executedImmediately := [callbackId]
        notifiedConsumer := false
        blockedOnId := none } ∧
    queueReturnCommand currentThreadId coreThreadId callbackId
        blockUntilComplete queue mMax =
      (⟨true⟩,
        { queue := queue
          mMaxCommandNotifyId := mMax
          executedImmediately := [callbackId]
          notifiedConsumer := false
          blockedOnId := none }) := by
  subst h
  exact ⟨by simp [queueCommand], by simp [queueReturnCommand]⟩

/-- C3 witness: a call from the consumer thread itself (thread 3), with
blockUntilComplete set, executes callback 5 immediately and changes
nothing else. -/
theorem queue_command_on_core_thread_synchronous_witness :
    queueCommand 3 3 5 true [] 0 =
      { queue := []
        mMaxCommandNotifyId := 0
        executedImmediately := [5]
        notifiedConsumer := false
        blockedOnId := none } ∧
    queueReturnCommand 3 3 5 true [] 0 =
      (⟨true⟩,
        { queue := []
          mMaxCommandNotifyId := 0
          executedImmediately := [5]
          notifiedConsumer := false
          blockedOnId := none }) :=
  queue_command_on_core_thread_synchronous 3 3 5 true [] 0 rfl

/-- C9: getAccessor is lazily creating and idempotent per thread: on a
thread with an empty thread-local slot it creates a fresh accessor, caches
it and appends it exactly once to the registry; on a thread with a cached
accessor it returns that accessor and changes nothing; a second call right
after the first returns the same accessor and the same state; and the
registry stays duplicate-free with all entries below the freshness
counter, so submitAccessors flushes one accessor per registered thread. -/
theorem getAccessor_lazy_idempotent (threadId : Nat) (s : AccessorState) :
    (s.tls threadId = none →
      (getAccessor threadId s).1 = s.nextAccessorId ∧
      (getAccessor threadId s).2.tls threadId = some (getAccessor threadId s).1 ∧
      (getAccessor threadId s).2.mAccessors =
        s.mAccessors ++ [(getAccessor threadId s).1] ∧
      submitAccessors (getAccessor threadId s).2 =
        s.mAccessors ++ [(getAccessor threadId s).1]) ∧
    (∀ a, s.tls threadId = some a → getAccessor threadId s = (a, s)) ∧
    getAccessor threadId (getAccessor threadId s).2 =
      ((getAccessor threadId s).1, (getAccessor threadId s).2) ∧
    ((∀ a ∈ s.mAccessors, a < s.nextAccessorId) → s.mAccessors.Nodup →
      ((getAccessor threadId s).2.mAccessors.Nodup ∧
        ∀ a ∈ (getAccessor threadId s).2.mAccessors,
          a < (getAccessor threadId s).2.nextAccessorId)) := by
  cases htls : s.tls threadId with
  | none =>
    refine ⟨fun _ => ?_, ?_, ?_, ?_⟩
    · simp [getAccessor, htls, submitAccessors]
    · intro a ha
      cases ha
    · simp [getAccessor, htls]
    · intro hlt hnd
      constructor
      · simp only [getAccessor, htls]
        refine List.Nodup.append hnd (List.nodup_singleton _) ?_
        intro a ha hb
        simp at hb
        subst hb
        exact absurd (hlt _ ha) (lt_irrefl _)
      · intro a ha
        simp only [getAccessor, htls] at ha ⊢
        simp at ha
        rcases ha with ha | ha
        · have := hlt _ ha
          omega
        · omega
  | some a0 =>
    refine ⟨?_, ?_, ?_, ?_⟩
    · intro hno
      cases hno
    · intro a ha
      cases ha
      simp [getAccessor, htls]
    · simp [getAccessor, htls]
    · intro hlt hnd
      constructor
      · simp only [getAccessor, htls]
        exact hnd
      · intro a ha
        simp only [getAccessor, htls] at ha ⊢
        exact hlt _ ha

/-- C1: in every reachable state of the protocol, a producer that has
returned from a blocking submission finds its exact command in the
executed log exactly once; while it is still blocked the command has been
invoked at most once; and no command carrying a notify id is ever invoked
twice. -/
theorem blocking_command_runs_exactly_once (s : SysState) (h : Reachable s) :
    (∀ p cmd, s.producers p = .returned cmd → s.executed.count cmd = 1) ∧
    (∀ p cmd, s.producers p = .waiting cmd → s.executed.count cmd ≤ 1) ∧
    (∀ cmd : QueuedCommand, cmd.notifyOnComplete = true →
      s.executed.count cmd ≤ 1) := by
  have hinv := reachable_inv h
  refine ⟨?_, ?_, ?_⟩
  · intro p cmd hp
    exact (hinv.ret p cmd hp).2.2.1
  · intro p cmd hp
    have w1 := (hinv.wait p cmd hp).1
    have e3 : s.executed.count cmd ≤ countIdIn s.executed cmd.notifyId :=
      count_le_countIdIn _ _ w1
    have hu := hinv.uniq cmd.notifyId
    simp only [occId] at hu
    omega
  · intro cmd hn
    have e3 : s.executed.count cmd ≤ countIdIn s.executed cmd.notifyId :=
      count_le_countIdIn _ _ hn
    have hu := hinv.uniq cmd.notifyId
    simp only [occId] at hu
    omega

/-- C1 witness: in the concrete run, after producer 0 has returned from
its blocking submission of command 7 (notify id 0), that command stands in
the executed log exactly once. -/
theorem blocking_command_runs_exactly_once_witness :
    demo10.executed.count ⟨7, false, true, 0⟩ = 1 :=
  (blocking_command_runs_exactly_once demo10 reach_demo10).1 0
    ⟨7, false, true, 0⟩ rfl

/-- C4: a notify id is allocated only on the blocking paths of
queueCommand and queueReturnCommand, taking the current counter value and
bumping the counter, while the non-blocking paths touch neither; the
counter never decreases across any protocol step; in every reachable state
the notify ids of pending commands (queued or in playback) are pairwise
distinct; and a blocked producer passes to returned only for its own
command, having found its own id in the completed set. -/
theorem notify_id_allocation_protocol :
    (∀ currentThreadId coreThreadId callbackId queue mMax,
      ¬ currentThreadId = coreThreadId →
      (queueCommand currentThreadId coreThreadId callbackId true queue mMax).queue =
        queue ++ [⟨callbackId, false, true, mMax⟩] ∧
      (queueCommand currentThreadId coreThreadId callbackId true queue
        mMax).mMaxCommandNotifyId = mMax + 1 ∧
      (queueCommand currentThreadId coreThreadId callbackId true queue
        mMax).blockedOnId = some mMax ∧
      (queueCommand currentThreadId coreThreadId callbackId false queue mMax).queue =
        queue ++ [⟨callbackId, false, false, 0⟩] ∧
      (queueCommand currentThreadId coreThreadId callbackId false queue
        mMax).mMaxCommandNotifyId = mMax ∧
      (queueCommand currentThreadId coreThreadId callbackId false queue
        mMax).blockedOnId = none ∧
      (queueReturnCommand currentThreadId coreThreadId callbackId true queue
        mMax).2.queue = queue ++ [⟨callbackId, true, true, mMax⟩] ∧
      (queueReturnCommand currentThreadId coreThreadId callbackId true queue
        mMax).2.mMaxCommandNotifyId = mMax + 1 ∧
      (queueReturnCommand currentThreadId coreThreadId callbackId false queue
        mMax).2.queue = queue ++ [⟨callbackId, true, false, 0⟩] ∧
      (queueReturnCommand currentThreadId coreThreadId callbackId false queue
        mMax).2.mMaxCommandNotifyId = mMax) ∧
    (∀ s s' : SysState, Step s s' →
      s.mMaxCommandNotifyId ≤ s'.mMaxCommandNotifyId) ∧
    (∀ s : SysState, Reachable s → (pendingNotifyIds s).Nodup) ∧
    (∀ (s s' : SysState) (p : Nat) (cmd cmd' : QueuedCommand),
      Step s s' → s.producers p = .waiting cmd →
      s'.producers p = .returned cmd' →
      cmd' = cmd ∧ cmd.notifyId ∈ s.mCommandsCompleted) := by
  refine ⟨?_, ?_, ?_, ?_⟩
  · intro currentThreadId coreThreadId callbackId queue mMax h
    refine ⟨?_, ?_, ?_, ?_, ?_, ?_, ?_, ?_, ?_, ?_⟩ <;>
      simp [queueCommand, queueReturnCommand, h]
  · intro s s' hstep
    exact step_max_mono hstep
  · intro s hs
    rw [List.nodup_iff_count_le_one]
    intro id
    rw [pendingNotifyIds_count]
    have hu := (reachable_inv hs).uniq id
    simp only [occId] at hu
    omega
  · intro s s' p cmd cmd' hstep hw hr
    have hinv := step_wake_inversion hstep hw hr
    exact ⟨hinv.1, hinv.2.1⟩

/-- C4 witness: the functional part evaluated at a concrete non-consumer
call (thread 1, consumer thread 3, callback 5, empty queue, counter 2),
and the uniqueness part at the reachable state with all three demo
commands pending. -/
theorem notify_id_allocation_protocol_witness :
    ((queueCommand 1 3 5 true [] 2).queue = [⟨5, false, true, 2⟩] ∧
      (queueCommand 1 3 5 true [] 2).mMaxCommandNotifyId = 3 ∧
      (queueCommand 1 3 5 true [] 2).blockedOnId = some 2 ∧
      (queueCommand 1 3 5 false [] 2).queue = [⟨5, false, false, 0⟩] ∧
      (queueCommand 1 3 5 false [] 2).mMaxCommandNotifyId = 2 ∧
      (queueCommand 1 3 5 false [] 2).blockedOnId = none ∧
      (queueReturnCommand 1 3 5 true [] 2).2.queue = [⟨5, true, true, 2⟩] ∧
      (queueReturnCommand 1 3 5 true [] 2).2.mMaxCommandNotifyId = 3 ∧
      (queueReturnCommand 1 3 5 false [] 2).2.queue = [⟨5, true, false, 0⟩] ∧
      (queueReturnCommand 1 3 5 false [] 2).2.mMaxCommandNotifyId = 2) ∧
    (pendingNotifyIds demo5).Nodup :=
  ⟨notify_id_allocation_protocol.1 1 3 5 [] 2 (by decide),
    notify_id_allocation_protocol.2.2.1 demo5 reach_demo5⟩

/-- C5: whenever the consumer thread takes the step that leaves its loop,
the queue is already empty, no batch is in playback, shutdown had been
requested, every command ever submitted has been executed, and the
consumer has given its borrowed worker slot back to the task pool. -/
theorem shutdown_drains_before_exit (s s' : SysState)
    (hreach : Reachable s) (hstep : Step s s')
    (hne : ¬ s.consumer = .exited) (hex : s'.consumer = .exited) :
    s.queue = [] ∧ batchOf s = [] ∧ s.mCoreThreadShutdown = true ∧
    s.executed = s.submitted ∧ s'.executed = s'.submitted ∧
    s'.workersReserved = 0 := by
  obtain ⟨hc, hq, hs, hq', he', hsub', hw'⟩ := step_exit_inversion hstep hne hex
  have hinv := reachable_inv hreach
  have hb : batchOf s = [] := by
    simp [batchOf, hc, consumerBatch]
  have hlog := hinv.log
  rw [hb, hq] at hlog
  simp at hlog
  refine ⟨hq, hb, hs, hlog.symm, ?_, ?_⟩
  · rw [he', hsub']
    exact hlog.symm
  · rw [hw', hinv.work, hc]
    rfl

/-- C5 witness: the exit step of the concrete run, taken after the three
submitted commands were drained: the queue is empty, all submissions are
executed, shutdown was requested and the worker slot is given back. -/
theorem shutdown_drains_before_exit_witness :
    demo10.queue = [] ∧ batchOf demo10 = [] ∧
    demo10.mCoreThreadShutdown = true ∧
    demo10.executed = demo10.submitted ∧ demo11.executed = demo11.submitted ∧
    demo11.workersReserved = 0 :=
  shutdown_drains_before_exit demo10 demo11 reach_demo10 step_demo1011
    (by decide) rfl

/-- C7: in every reachable state each notify id occurs in the completed
set at most once; and a blocked producer returns only after finding its
own id in the set, erasing exactly that one entry, so that its id is no
longer present when the call returns. -/
theorem completed_set_holds_id_at_most_once :
    (∀ s : SysState, Reachable s → ∀ id, s.mCommandsCompleted.count id ≤ 1) ∧
    (∀ (s s' : SysState) (p : Nat) (cmd : QueuedCommand),
      Reachable s → Step s s' → s.producers p = .waiting cmd →
      s'.producers p = .returned cmd →
      cmd.notifyId ∈ s.mCommandsCompleted ∧
      s'.mCommandsCompleted = s.mCommandsCompleted.erase cmd.notifyId ∧
      s'.mCommandsCompleted.count cmd.notifyId = 0) := by
  have hcount : ∀ s : SysState, Reachable s →
      ∀ id, s.mCommandsCompleted.count id ≤ 1 := by
    intro s hs id
    have hinv := reachable_inv hs
    have h1 := hinv.compLe id
    have h2 := hinv.uniq id
    simp only [occId] at h2
    omega
  refine ⟨hcount, ?_⟩
  intro s s' p cmd hs hstep hw hr
  obtain ⟨-, hm, he⟩ := step_wake_inversion hstep hw hr
  refine ⟨hm, he, ?_⟩
  rw [he, List.count_erase_self]
  have h1 := hcount s hs cmd.notifyId
  have h2 := List.one_le_count_iff.mpr hm
  omega

/-- C7 witness: at the reachable state where command 7 has been played,
its id 0 occurs once in the completed set; the wake step of producer 0
finds it, erases it, and leaves a set without it. -/
theorem completed_set_holds_id_at_most_once_witness :
    demo9.mCommandsCompleted.count 0 ≤ 1 ∧
    ((0 : Nat) ∈ demo9.mCommandsCompleted ∧
      demo10.mCommandsCompleted = demo9.mCommandsCompleted.erase 0 ∧
      demo10.mCommandsCompleted.count 0 = 0) :=
  ⟨completed_set_holds_id_at_most_once.1 demo9 reach_demo9 0,
    completed_set_holds_id_at_most_once.2 demo9 demo10 0 ⟨7, false, true, 0⟩
      reach_demo9 step_demo910 rfl rfl⟩

/-- C8: in every reachable state the consumer holds exactly one reserved
worker slot while checking the queue or playing back a batch, and zero
while blocked in the wait or exited; entering the wait gives one slot back
(addWorker immediately before the wait, only with an empty queue and no
shutdown), and leaving it reclaims one (removeWorker immediately after the
wake, before the queue is tested again). -/
theorem consumer_worker_slot_accounting :
    (∀ s : SysState, Reachable s →
      (s.consumer = .blocked → s.workersReserved = 0) ∧
      (s.consumer = .checking → s.workersReserved = 1) ∧
      (∀ b, s.consumer = .playing b → s.workersReserved = 1) ∧
      (s.consumer = .exited → s.workersReserved = 0)) ∧
    (∀ s s' : SysState, Step s s' →
      s.consumer = .checking → s'.consumer = .blocked →
      s.queue = [] ∧ s.mCoreThreadShutdown = false ∧
      s'.workersReserved = s.workersReserved - 1) ∧
    (∀ s s' : SysState, Step s s' →
      s.consumer = .blocked → s'.consumer = .checking →
      s'.workersReserved = s.workersReserved + 1) := by
  refine ⟨?_, ?_, ?_⟩
  · intro s hs
    have hw := (reachable_inv hs).work
    refine ⟨?_, ?_, ?_, ?_⟩
    · intro hb
      rw [hw, hb]
      rfl
    · intro hb
      rw [hw, hb]
      rfl
    · intro b hb
      rw [hw, hb]
      rfl
    · intro hb
      rw [hw, hb]
      rfl
  · intro s s' hstep hc hb
    exact step_sleep_inversion hstep hc hb
  · intro s s' hstep hb hc
    exact (step_wakeup_inversion hstep hb hc).1

/-- C8 witness: in the concrete run, while the consumer is playing back
the flushed batch it holds exactly one worker slot, and after the exit
step it holds zero. -/
theorem consumer_worker_slot_accounting_witness :
    demo5.workersReserved = 1 :=
  (consumer_worker_slot_accounting.1 demo5 reach_demo5).2.2.1
    [⟨7, false, true, 0⟩, ⟨8, false, false, 0⟩, ⟨9, true, false, 0⟩] rfl

end BansheeEngine
